import Mathlib

/-!
Shallow embedding of src/api/index.py, an anonymous file-hosting service
(Flask + MongoDB GridFS), used to check the specification claims.

The MongoDB collection of metadata documents is modelled as a list of
records in natural (insertion) order; find_one returns the first match
in that order, and insert_one appends.  GridFS is a list of
(handle, bytes) pairs; put appends a blob under a fresh handle.
The database-not-connected branches (HTTP 500 issued before any storage
access) are outside every claim and are not modelled; randomness is
abstracted by an explicit stream of draws.
-/

/-- A byte string (file content). -/
abbrev Bytes := List Nat

/-- One metadata document of the files collection, with the fields built
in upload_file.  Mongo ObjectIds are modelled as naturals. -/
structure FileRecord where
  id : Nat
  code : String
  extension : String
  original_name : String
  content_type : String
  file_id : Nat
  size : Nat
  uploaded_at : Nat
deriving Repr, DecidableEq

/-- The shared storage state: the files collection in natural order,
the GridFS blobs, and the next fresh ObjectId. -/
structure Store where
  files : List FileRecord
  fs : List (Nat × Bytes)
  nextId : Nat
deriving Repr, DecidableEq

/-- EXTENSION_MAP: content type to file extension. -/
def EXTENSION_MAP : List (String × String) := [
  ("image/jpeg", ".jpg"),
  ("image/jpg", ".jpg"),
  ("image/png", ".png"),
  ("image/gif", ".gif"),
  ("image/webp", ".webp"),
  ("video/mp4", ".mp4"),
  ("video/mpeg", ".mpeg"),
  ("video/quicktime", ".mov"),
  ("video/x-msvideo", ".avi"),
  ("video/webm", ".webm"),
  ("application/pdf", ".pdf"),
  ("application/msword", ".doc"),
  ("application/vnd.openxmlformats-officedocument.wordprocessingml.document", ".docx"),
  ("text/plain", ".txt"),
  ("application/zip", ".zip"),
  ("application/x-rar-compressed", ".rar")]

/-- get_extension: dictionary lookup with default extension .bin. -/
def get_extension (content_type : String) : String :=
  ((EXTENSION_MAP.find? (fun p => p.1 == content_type)).map Prod.snd).getD ".bin"

/-- string.ascii_letters + string.digits, the alphabet that
random.choices draws from in generate_random_code. -/
def codeAlphabet : List Char :=
  "abcdefghijklmnopqrstuvwxyzABCDEFGHIJKLMNOPQRSTUVWXYZ0123456789".toList

/-- generate_random_code(len): len independent draws from the alphabet.
The randomness is abstracted by the draw stream pick; draw i selects
index pick i modulo the alphabet size. -/
def generate_random_code (pick : Nat → Nat) (len : Nat) : String :=
  String.mk ((List.range len).map (fun i => codeAlphabet.getD (pick i % codeAlphabet.length) 'a'))

/-- files_collection.find_one on a code-only query: the first document in
natural order whose code matches. -/
def find_one_code (files : List FileRecord) (code : String) : Option FileRecord :=
  files.find? (fun r => r.code == code)

/-- The collision-retry loop of upload_file:
while files_collection.find_one(code) and attempts < 10, regenerate.
gen n is the n-th code produced by generate_random_code.  The loop is
written with a structurally decreasing fuel that always equals
10 - attempts, so the attempts < 10 guard alone decides every exit
exactly as the while condition does. -/
def alloc_go (files : List FileRecord) (gen : Nat → String) :
    Nat → String → Nat → String × Nat
  | 0, code, attempts => (code, attempts)
  | fuel + 1, code, attempts =>
    if (find_one_code files code).isSome = true ∧ attempts < 10 then
      alloc_go files gen fuel (gen (attempts + 1)) (attempts + 1)
    else
      (code, attempts)

/-- Code allocation in upload_file: start from the first generated code
with attempts = 0 and run the retry loop. -/
def alloc_loop (files : List FileRecord) (gen : Nat → String) : String × Nat :=
  alloc_go files gen 10 (gen 0) 0

/-- files_collection.insert_one: the collection has no unique index on
code (none is ever created), so the write is an unconditional append. -/
def insert_one (files : List FileRecord) (doc : FileRecord) : List FileRecord :=
  files ++ [doc]

/-- The 400-level rejections of upload_file, plus the 500 produced by its
outer exception handler when the metadata insert raises. -/
inductive UploadError where
  | noFileProvided
  | noFileSelected
  | uploadFailed
deriving Repr, DecidableEq

deriving instance DecidableEq for Except

/-- The success payload of upload_file: inserted id, code, the path part
code + extension of the returned URL, size and content type. -/
structure UploadResult where
  file_id : Nat
  code : String
  urlPath : String
  size : Nat
  type : String
deriving Repr, DecidableEq

/-- upload_file: validate the request, derive the extension, run the
allocation loop, fs.put the content, then insert_one the metadata.
hasFile models the presence of the multipart file field; insertOk is
false when insert_one raises, in which case the outer handler returns
the 500 error with the blob already written and never deleted. -/
def upload_file (s : Store) (gen : Nat → String) (hasFile : Bool) (filename : String)
    (declared_type : Option String) (content : Bytes) (now : Nat) (insertOk : Bool) :
    Except UploadError UploadResult × Store :=
  if !hasFile then (.error .noFileProvided, s)
  else if filename == "" then (.error .noFileSelected, s)
  else
    let content_type := declared_type.getD "application/octet-stream"
    let extension := get_extension content_type
    let code := (alloc_loop s.files gen).1
    let handle := s.nextId
    let s1 : Store := { s with fs := s.fs ++ [(handle, content)], nextId := s.nextId + 1 }
    if !insertOk then (.error .uploadFailed, s1)
    else
      let rid := s1.nextId
      let doc : FileRecord :=
        { id := rid, code := code, extension := extension, original_name := filename,
          content_type := content_type, file_id := handle, size := content.length,
          uploaded_at := now }
      let s2 : Store := { s1 with files := insert_one s1.files doc, nextId := s1.nextId + 1 }
      let res : UploadResult :=
        { file_id := rid, code := code, urlPath := code ++ extension, size := content.length,
          type := content_type }
      (.ok res, s2)

/-- filename.rsplit(sep, 1) for sep = the dot: split at the last dot;
the second component is none when the string has no dot. -/
def rsplit_dot : List Char → List Char × Option (List Char)
  | [] => ([], none)
  | c :: rest =>
    match rsplit_dot rest with
    | (before, some ext) => (c :: before, some ext)
    | (before, none) => if c = '.' then ([], some before) else (c :: before, none)

/-- The reserved-route guard at the top of view_file. -/
def reservedCheck (filename : String) : Bool :=
  filename == "upload" || filename == "health" || filename == "files"

/-- files_collection.find_one on the view_file query: code always, and
the extension exactly when one was parsed from the path. -/
def find_one_query (files : List FileRecord) (code : String) (ext : Option String) :
    Option FileRecord :=
  files.find? (fun r => r.code == code &&
    (match ext with
     | none => true
     | some e => r.extension == e))

/-- fs.get: the GridFS blob stored under a handle, none when absent. -/
def fs_get (fs : List (Nat × Bytes)) (handle : Nat) : Option Bytes :=
  (fs.find? (fun p => p.1 == handle)).map Prod.snd

/-- The four outcomes of view_file: the reserved-route 404, the
not-found 404, a served file, and the 500 of the exception handler when
GridFS retrieval fails despite live metadata. -/
inductive ViewResult where
  | invalidRoute
  | notFound
  | ok (data : Bytes) (content_type : String) (disposition_name : String)
  | retrievalError
deriving Repr, DecidableEq

/-- view_file: reject reserved routes, rsplit the path at the last dot,
query by code (and extension when present), then fs.get the content and
serve it with the stored content type and original name. -/
def view_file (s : Store) (filename : String) : ViewResult :=
  if reservedCheck filename then .invalidRoute
  else
    let parts := rsplit_dot filename.toList
    let code := String.mk parts.1
    let ext : Option String := parts.2.map (fun e => String.mk ('.' :: e))
    match find_one_query s.files code ext with
    | none => .notFound
    | some doc =>
      match fs_get s.fs doc.file_id with
      | none => .retrievalError
      | some data => .ok data doc.content_type doc.original_name

/-- fs.delete: remove the GridFS blob stored under a handle. -/
def fs_delete (fs : List (Nat × Bytes)) (handle : Nat) : List (Nat × Bytes) :=
  fs.eraseP (fun p => p.1 == handle)

/-- files_collection.find_one on an id query. -/
def find_one_id (files : List FileRecord) (id : Nat) : Option FileRecord :=
  files.find? (fun r => r.id == id)

/-- files_collection.delete_one on an id query: removes the first
matching document. -/
def delete_one_id (files : List FileRecord) (id : Nat) : List FileRecord :=
  files.eraseP (fun r => r.id == id)

/-- The first effect of a successful delete_file: the GridFS blob of the
found document is removed; the metadata is still untouched. -/
def delete_content_step (s : Store) (doc : FileRecord) : Store :=
  { s with fs := fs_delete s.fs doc.file_id }

/-- The second effect of a successful delete_file: the metadata document
is removed. -/
def delete_meta_step (s : Store) (fid : Nat) : Store :=
  { s with files := delete_one_id s.files fid }

/-- The two outcomes of delete_file besides the 500 branch: 404 when no
document has the id, success otherwise. -/
inductive DeleteResult where
  | notFound
  | success
deriving Repr, DecidableEq

/-- delete_file: look the record up by id, 404 if absent, otherwise
fs.delete the content first and delete_one the metadata second. -/
def delete_file (s : Store) (fid : Nat) : DeleteResult × Store :=
  match find_one_id s.files fid with
  | none => (.notFound, s)
  | some doc => (.success, delete_meta_step (delete_content_step s doc) fid)

/-- One entry of the list_files response: metadata and constructed URLs
only, never the content bytes. -/
structure FileEntry where
  file_id : Nat
  code : String
  original_name : String
  urlPath : String
  size : Nat
  type : String
  uploaded_at : Nat
deriving Repr, DecidableEq

/-- The entry that list_files builds from one document. -/
def mkEntry (doc : FileRecord) : FileEntry :=
  { file_id := doc.id, code := doc.code, original_name := doc.original_name,
    urlPath := doc.code ++ doc.extension, size := doc.size, type := doc.content_type,
    uploaded_at := doc.uploaded_at }

/-- list_files: find().sort(uploaded_at descending).limit(100), then
build the response entries; the content store is never read. -/
def list_files (s : Store) : List FileEntry :=
  ((s.files.mergeSort (fun a b => decide (b.uploaded_at ≤ a.uploaded_at))).take 100).map mkEntry

/-- Modelled from the spec: the repository contains no Retention Sweeper
(src/api/index.py never deletes by age), so its per-record pass is taken
from spec section 4.4: for one expired record, delete its content from
the Content Store and then remove its metadata. -/
def sweep_record (s : Store) (r : FileRecord) : Store :=
  { s with fs := s.fs.filter (fun p => !(p.1 == r.file_id)),
           files := s.files.filter (fun x => !(x.id == r.id)) }

/-- Modelled from the spec: one sweep cycle of the Retention Sweeper,
absent from the repository.  It computes the cutoff now minus the
retention window, enumerates the expired records individually and runs
the per-record pass on each (spec section 4.4). -/
def sweep (s : Store) (now rw : Nat) : Store :=
  (s.files.filter (fun r => decide (r.uploaded_at < now - rw))).foldl sweep_record s

/-- A constant code stream: the allocator draws the same code forever
(a possible run of the RNG). -/
def genA : Nat → String := fun _ => "aaaa"

/-- A fixture record that is live under code aaaa. -/
def recA : FileRecord :=
  { id := 0, code := "aaaa", extension := ".txt", original_name := "a.txt",
    content_type := "text/plain", file_id := 0, size := 1, uploaded_at := 0 }

/-- A fixture store holding recA and its one-byte blob. -/
def storeA : Store := { files := [recA], fs := [(0, [1])], nextId := 1 }

example : (upload_file storeA genA true "b.txt" (some "text/plain") [9] 1 true).1.isOk = true := by decide
example : view_file (upload_file storeA genA true "b.txt" (some "text/plain") [9] 1 true).2 "aaaa.txt" = .ok [1] "text/plain" "a.txt" := by decide
example : generate_random_code (fun _ => 0) 4 = "aaaa" := by decide
example : view_file storeA "aaaa" = .ok [1] "text/plain" "a.txt" := by decide
example : view_file storeA "aaaa.png" = .notFound := by decide
example : delete_file storeA 0 = (.success, { files := [], fs := [], nextId := 1 }) := by decide
example : delete_file storeA 5 = (.notFound, storeA) := by decide
example : sweep storeA 20 5 = { files := [], fs := [], nextId := 1 } := by decide
example : sweep storeA 20 25 = storeA := by decide
example : (upload_file storeA genA true "b.txt" (some "text/plain") [] 0 true).1.isOk = true := by decide
example : (upload_file storeA genA true "" (some "text/plain") [9] 0 true).1 = .error .noFileSelected := by decide
example : (upload_file storeA genA true "b.txt" (some "text/plain") [9] 1 false).2.fs = [(0, [1]), (1, [9])] := by decide

/-! Helper lemmas about path splitting, the alphabet, extensions and
first-match queries. -/

/-- rsplit_dot on a dot-free string finds no separator. -/
lemma rsplit_dot_no_dot : ∀ (l : List Char), '.' ∉ l → rsplit_dot l = (l, none) := by
  intro l
  induction l with
  | nil => intro _; rfl
  | cons c rest ih =>
    intro h
    have hc : c ≠ '.' := fun hc => h (hc ▸ List.mem_cons_self c rest)
    have hrest : '.' ∉ rest := fun hr => h (List.mem_cons_of_mem c hr)
    simp only [rsplit_dot, ih hrest, if_neg hc]

/-- rsplit_dot splits at the last dot: appending a dot and a dot-free
suffix is undone exactly. -/
lemma rsplit_dot_last : ∀ (code ext : List Char), '.' ∉ ext →
    rsplit_dot (code ++ '.' :: ext) = (code, some ext) := by
  intro code ext he
  induction code with
  | nil =>
    rw [List.nil_append, rsplit_dot, rsplit_dot_no_dot ext he]
    simp
  | cons c rest ih =>
    rw [List.cons_append, rsplit_dot, ih]

/-- Any indexed draw from the code alphabet is a letter or a digit. -/
lemma codeAlphabet_getD_mem (k : Nat) : codeAlphabet.getD k 'a' ∈ codeAlphabet := by
  by_cases h : k < codeAlphabet.length
  · rw [List.getD_eq_getElem codeAlphabet 'a' h]
    exact List.getElem_mem h
  · rw [List.getD_eq_default codeAlphabet 'a' (Nat.le_of_not_lt h)]
    decide

/-- generate_random_code returns exactly the requested number of
characters. -/
lemma generate_random_code_length (pick : Nat → Nat) (len : Nat) :
    (generate_random_code pick len).length = len := by
  simp [generate_random_code, String.length]

/-- Every character of a generated code is drawn from the alphabet. -/
lemma generate_random_code_mem (pick : Nat → Nat) (len : Nat) :
    ∀ c ∈ (generate_random_code pick len).toList, c ∈ codeAlphabet := by
  intro c hc
  simp only [generate_random_code, String.toList, List.mem_map] at hc
  obtain ⟨i, -, rfl⟩ := hc
  exact codeAlphabet_getD_mem _

/-- Generated codes never contain a dot. -/
lemma generate_random_code_no_dot (pick : Nat → Nat) (len : Nat) :
    '.' ∉ (generate_random_code pick len).toList := by
  intro h
  have := generate_random_code_mem pick len '.' h
  revert this
  decide

/-- A path whose length is neither 5 nor 6 cannot be a reserved route
name (the reserved names have lengths 6, 6 and 5). -/
lemma reservedCheck_false_of_length (f : String) (h5 : f.length ≠ 5) (h6 : f.length ≠ 6) :
    reservedCheck f = false := by
  have h1 : f ≠ "upload" := fun h => h6 (h ▸ rfl)
  have h2 : f ≠ "health" := fun h => h6 (h ▸ rfl)
  have h3 : f ≠ "files" := fun h => h5 (h ▸ rfl)
  simp [reservedCheck, beq_eq_false_iff_ne.mpr h1, beq_eq_false_iff_ne.mpr h2,
    beq_eq_false_iff_ne.mpr h3]

/-- A path containing a dot cannot be a reserved route name (the
reserved names are dot-free). -/
lemma reservedCheck_false_of_dot (f : String) (h : '.' ∈ f.toList) :
    reservedCheck f = false := by
  have h1 : f ≠ "upload" := by rintro rfl; revert h; decide
  have h2 : f ≠ "health" := by rintro rfl; revert h; decide
  have h3 : f ≠ "files" := by rintro rfl; revert h; decide
  simp [reservedCheck, beq_eq_false_iff_ne.mpr h1, beq_eq_false_iff_ne.mpr h2,
    beq_eq_false_iff_ne.mpr h3]

/-- Once the reserved-route guard passes, view_file answers from the
query and never returns the invalid-route 404. -/
lemma view_file_not_invalid (s : Store) (f : String) (h : reservedCheck f = false) :
    view_file s f ≠ ViewResult.invalidRoute := by
  rw [view_file, if_neg (by simp [h])]
  dsimp only
  split
  · simp
  · split <;> simp

/-- get_extension returns a mapped extension or the fallback .bin. -/
lemma get_extension_cases (ct : String) :
    get_extension ct ∈ EXTENSION_MAP.map Prod.snd ∨ get_extension ct = ".bin" := by
  rw [get_extension]
  cases hf : EXTENSION_MAP.find? (fun p => p.1 == ct) with
  | none => right; rfl
  | some p =>
    left
    exact List.mem_map_of_mem Prod.snd (List.mem_of_find?_eq_some hf)

/-- Every extension get_extension can return is at least 4 characters
long. -/
lemma get_extension_length (ct : String) : 4 ≤ (get_extension ct).length := by
  rcases get_extension_cases ct with h | h
  · have hall : ∀ e ∈ EXTENSION_MAP.map Prod.snd, 4 ≤ e.length := by decide
    exact hall _ h
  · rw [h]; decide

/-- Every extension get_extension can return starts with a dot and has
no further dot. -/
lemma get_extension_shape (ct : String) :
    (get_extension ct).data.head? = some '.' ∧ '.' ∉ (get_extension ct).data.tail := by
  rcases get_extension_cases ct with h | h
  · have hall : ∀ e ∈ EXTENSION_MAP.map Prod.snd,
        e.data.head? = some '.' ∧ '.' ∉ e.data.tail := by decide
    exact hall _ h
  · rw [h]; decide

/-- An extension string decomposes as a dot followed by its dot-free
tail. -/
lemma get_extension_decomp (ct : String) :
    (get_extension ct).data = '.' :: (get_extension ct).data.tail := by
  have h := (get_extension_shape ct).1
  cases hd : (get_extension ct).data with
  | nil => rw [hd] at h; simp at h
  | cons c t =>
    rw [hd] at h
    simp only [List.head?_cons, Option.some.injEq] at h
    rw [h]
    rfl

/-- When at most one element satisfies a predicate, erasing the first
match leaves no match. -/
lemma find?_eraseP_of_unique {α : Type} (p : α → Bool) :
    ∀ (l : List α), (l.filter p).length ≤ 1 → (l.eraseP p).find? p = none := by
  intro l
  induction l with
  | nil => intro _; rfl
  | cons a t ih =>
    intro hlen
    cases hpa : p a with
    | true =>
      rw [List.eraseP_cons_of_pos hpa]
      rw [List.find?_eq_none]
      intro x hx hpx
      have : (t.filter p).length = 0 := by
        rw [List.filter_cons_of_pos hpa] at hlen
        simp only [List.length_cons] at hlen
        omega
      rw [List.length_eq_zero, List.filter_eq_nil_iff] at this
      exact this x hx hpx
    | false =>
      rw [List.eraseP_cons_of_neg (by simp [hpa]), List.find?_cons_of_neg _ (by simp [hpa])]
      apply ih
      rw [List.filter_cons_of_neg (by simp [hpa])] at hlen
      exact hlen

/-- find_one on a one-document list whose document matches. -/
lemma find?_singleton {α : Type} (p : α → Bool) (a : α) (h : p a = true) :
    List.find? p [a] = some a := by
  rw [List.find?_cons_of_pos _ h]

/-- The invariant of the collision-retry loop: starting after a given
number of attempts on the code generated at that attempt, with every
earlier candidate colliding, the loop ends within the retry budget, on
the code generated at the final attempt count, with every earlier
candidate colliding, and stops only at a free code or at budget
exhaustion. -/
lemma alloc_go_spec (files : List FileRecord) (gen : Nat → String) :
    ∀ (fuel attempts : Nat), attempts + fuel = 10 →
      (∀ j < attempts, (find_one_code files (gen j)).isSome = true) →
      (alloc_go files gen fuel (gen attempts) attempts).2 ≤ 10 ∧
      (alloc_go files gen fuel (gen attempts) attempts).1
        = gen (alloc_go files gen fuel (gen attempts) attempts).2 ∧
      (∀ j < (alloc_go files gen fuel (gen attempts) attempts).2,
        (find_one_code files (gen j)).isSome = true) ∧
      ((find_one_code files (alloc_go files gen fuel (gen attempts) attempts).1).isSome = false ∨
        (alloc_go files gen fuel (gen attempts) attempts).2 = 10) := by
  intro fuel
  induction fuel with
  | zero =>
    intro attempts h10 hprev
    have ha : attempts = 10 := by omega
    subst ha
    exact ⟨le_refl 10, rfl, hprev, Or.inr rfl⟩
  | succ m ih =>
    intro attempts h10 hprev
    by_cases hc : (find_one_code files (gen attempts)).isSome = true
    · rw [alloc_go, if_pos ⟨hc, by omega⟩]
      apply ih (attempts + 1) (by omega)
      intro j hj
      rcases Nat.lt_succ_iff_lt_or_eq.mp hj with hj | hj
      · exact hprev j hj
      · rw [hj]; exact hc
    · rw [alloc_go, if_neg (fun hand => hc hand.1)]
      refine ⟨by omega, rfl, hprev, Or.inl ?_⟩
      simpa using hc

/-- The metadata document a successful upload inserts. -/
def uploadDoc (s : Store) (gen : Nat → String) (filename : String) (dt : Option String)
    (content : Bytes) (now : Nat) : FileRecord :=
  { id := s.nextId + 1, code := (alloc_loop s.files gen).1,
    extension := get_extension (dt.getD "application/octet-stream"),
    original_name := filename, content_type := dt.getD "application/octet-stream",
    file_id := s.nextId, size := content.length, uploaded_at := now }

/-- The exact shape of a successful upload: response fields and the
stores after the two writes. -/
lemma upload_file_ok (s : Store) (gen : Nat → String) (filename : String) (dt : Option String)
    (content : Bytes) (now : Nat) (hname : filename ≠ "") :
    upload_file s gen true filename dt content now true =
      (.ok { file_id := s.nextId + 1, code := (alloc_loop s.files gen).1,
             urlPath := (alloc_loop s.files gen).1
               ++ get_extension (dt.getD "application/octet-stream"),
             size := content.length, type := dt.getD "application/octet-stream" },
       { files := s.files ++ [uploadDoc s gen filename dt content now],
         fs := s.fs ++ [(s.nextId, content)], nextId := s.nextId + 2 }) := by
  have hb : (filename == "") = false := beq_eq_false_iff_ne.mpr hname
  rw [upload_file]
  simp [hb, insert_one, uploadDoc]

/-- The exact shape of an upload whose metadata insert raises: the
error is surfaced with the blob already written and not removed. -/
lemma upload_file_insert_raises (s : Store) (gen : Nat → String) (filename : String)
    (dt : Option String) (content : Bytes) (now : Nat) (hname : filename ≠ "") :
    upload_file s gen true filename dt content now false =
      (.error .uploadFailed,
       { files := s.files, fs := s.fs ++ [(s.nextId, content)], nextId := s.nextId + 1 }) := by
  have hb : (filename == "") = false := beq_eq_false_iff_ne.mpr hname
  rw [upload_file]
  simp [hb]

/-- C4 counterexample: an upload with a filename but zero content bytes
is not rejected: it succeeds and stores a metadata record and an empty
blob, so the InvalidInput check on empty content does not exist. -/
theorem C4_counterexample :
    (upload_file storeA genA true "b.txt" (some "text/plain") [] 0 true).1.isOk = true ∧
    (upload_file storeA genA true "b.txt" (some "text/plain") [] 0 true).2.files.length = 2 ∧
    (upload_file storeA genA true "b.txt" (some "text/plain") [] 0 true).2.fs.length = 2 := by
  decide

/-- C4 (amended): an upload fails with InvalidInput, leaving the stores
unchanged, exactly when the file field is missing or the filename is
empty; the emptiness of the content is never checked, so an upload with
a filename and zero content bytes succeeds. -/
theorem C4_validation (s : Store) (gen : Nat → String) (filename : String)
    (dt : Option String) (content : Bytes) (now : Nat) (insertOk : Bool)
    (hname : filename ≠ "") :
    upload_file s gen false filename dt content now insertOk = (.error .noFileProvided, s) ∧
    upload_file s gen true "" dt content now insertOk = (.error .noFileSelected, s) ∧
    (upload_file s gen true filename dt content now true).1.isOk = true := by
  refine ⟨rfl, by rw [upload_file]; simp, ?_⟩
  rw [upload_file_ok s gen filename dt content now hname]
  rfl

/-- C4 witness: the amended statement at a concrete store and request. -/
theorem C4_validation_witness :
    upload_file storeA genA false "b.txt" (some "text/plain") [9] 0 true
      = (.error .noFileProvided, storeA) ∧
    upload_file storeA genA true "" (some "text/plain") [9] 0 true
      = (.error .noFileSelected, storeA) ∧
    (upload_file storeA genA true "b.txt" (some "text/plain") [9] 0 true).1.isOk = true :=
  C4_validation storeA genA "b.txt" (some "text/plain") [9] 0 true (by decide)

/-- C8 counterexample: when the metadata insert fails after the blob was
written, the error is surfaced but the just-written blob (handle 1) is
still present in the content store: the orchestration does not delete
it. -/
theorem C8_counterexample :
    (upload_file storeA genA true "b.txt" (some "text/plain") [9] 1 false).1
      = .error .uploadFailed ∧
    (upload_file storeA genA true "b.txt" (some "text/plain") [9] 1 false).2.fs
      = [(0, [1]), (1, [9])] ∧
    fs_get (upload_file storeA genA true "b.txt" (some "text/plain") [9] 1 false).2.fs 1
      = some [9] := by
  decide

/-- C8 (amended): on a metadata-insert failure after the content write,
the upload surfaces the error while the just-written blob stays in the
content store as an orphan; no compensating delete is issued. -/
theorem C8_orphan_on_insert_failure (s : Store) (gen : Nat → String) (filename : String)
    (dt : Option String) (content : Bytes) (now : Nat) (hname : filename ≠ "") :
    upload_file s gen true filename dt content now false
      = (.error .uploadFailed,
         { files := s.files, fs := s.fs ++ [(s.nextId, content)], nextId := s.nextId + 1 }) :=
  upload_file_insert_raises s gen filename dt content now hname

/-- C8 witness: the amended statement at a concrete store and request. -/
theorem C8_orphan_witness :
    upload_file storeA genA true "b.txt" (some "text/plain") [9] 1 false
      = (.error .uploadFailed,
         { files := storeA.files, fs := storeA.fs ++ [(1, [9])], nextId := 2 }) :=
  C8_orphan_on_insert_failure storeA genA "b.txt" (some "text/plain") [9] 1 (by decide)

/-- A second record under the already-live code aaaa, as insert would
receive it. -/
def recB : FileRecord :=
  { id := 2, code := "aaaa", extension := ".txt", original_name := "b.txt",
    content_type := "text/plain", file_id := 1, size := 1, uploaded_at := 1 }

/-- C2 counterexample: with a live record under code aaaa already in the
store, inserting another record with code aaaa does not fail with
DuplicateCode (insert_one cannot fail: the collection has no unique
index); it creates a second live record with the same code. -/
theorem C2_counterexample :
    insert_one storeA.files recB = [recA, recB] ∧
    ((insert_one storeA.files recB).filter (fun r => r.code == "aaaa")).length = 2 := by
  decide

/-- C2 (amended): the record store performs no atomic uniqueness check:
insert always succeeds, and when every candidate code of the allocator
collides (the retry budget being exhausted), the whole upload still
succeeds and leaves two live records sharing the chosen code. -/
theorem C2_insert_not_atomic (s : Store) (gen : Nat → String) (filename : String)
    (dt : Option String) (content : Bytes) (now : Nat)
    (hname : filename ≠ "")
    (hcollide : ∀ j, j ≤ 10 → (find_one_code s.files (gen j)).isSome = true) :
    (upload_file s gen true filename dt content now true).1.isOk = true ∧
    2 ≤ ((upload_file s gen true filename dt content now true).2.files.filter
          (fun r => r.code == (alloc_loop s.files gen).1)).length := by
  have hspec := alloc_go_spec s.files gen 10 0 rfl (by omega)
  rw [show alloc_go s.files gen 10 (gen 0) 0 = alloc_loop s.files gen from rfl] at hspec
  obtain ⟨hle, hcode, -, hlast⟩ := hspec
  have hdup : (find_one_code s.files (alloc_loop s.files gen).1).isSome = true := by
    rw [hcode]
    exact hcollide _ hle
  rw [upload_file_ok s gen filename dt content now hname]
  refine ⟨rfl, ?_⟩
  rw [List.filter_append]
  rw [List.length_append]
  have h1 : 1 ≤ (s.files.filter (fun r => r.code == (alloc_loop s.files gen).1)).length := by
    rw [find_one_code, List.find?_isSome] at hdup
    obtain ⟨x, hx, hpx⟩ := hdup
    have : x ∈ s.files.filter (fun r => r.code == (alloc_loop s.files gen).1) :=
      List.mem_filter.mpr ⟨hx, hpx⟩
    exact List.length_pos.mpr (fun he => by rw [he] at this; exact absurd this (List.not_mem_nil x))
  have h2 : ([uploadDoc s gen filename dt content now].filter
      (fun r => r.code == (alloc_loop s.files gen).1)).length = 1 := by
    simp [uploadDoc]
  omega

/-- C2 witness: the amended statement at a concrete store whose single
record is live under the constant code stream's only output. -/
theorem C2_insert_not_atomic_witness :
    (upload_file storeA genA true "b.txt" (some "text/plain") [9] 1 true).1.isOk = true ∧
    2 ≤ ((upload_file storeA genA true "b.txt" (some "text/plain") [9] 1 true).2.files.filter
          (fun r => r.code == (alloc_loop storeA.files genA).1)).length :=
  C2_insert_not_atomic storeA genA "b.txt" (some "text/plain") [9] 1 (by decide)
    (fun j _ => (by decide : (find_one_code storeA.files "aaaa").isSome = true))

/-- C5: for any draw stream, the allocator returns a 4-character code
drawn from letters and digits; the loop re-checks the store and
regenerates on collision, making at most 10 retries (every candidate
before the final attempt count collided), and it stops only on a free
code or, with the budget exhausted at 10, proceeds with the last
generated code instead of failing. -/
theorem C5_allocator (files : List FileRecord) (picks : Nat → Nat → Nat) :
    (alloc_loop files (fun n => generate_random_code (picks n) 4)).1.length = 4 ∧
    (∀ c ∈ (alloc_loop files (fun n => generate_random_code (picks n) 4)).1.toList,
      c ∈ codeAlphabet) ∧
    (alloc_loop files (fun n => generate_random_code (picks n) 4)).2 ≤ 10 ∧
    (∀ j < (alloc_loop files (fun n => generate_random_code (picks n) 4)).2,
      (find_one_code files (generate_random_code (picks j) 4)).isSome = true) ∧
    ((find_one_code files
        (alloc_loop files (fun n => generate_random_code (picks n) 4)).1).isSome = false ∨
      (alloc_loop files (fun n => generate_random_code (picks n) 4)).2 = 10) := by
  have hspec := alloc_go_spec files (fun n => generate_random_code (picks n) 4) 10 0 rfl
    (by omega)
  rw [show alloc_go files (fun n => generate_random_code (picks n) 4) 10
      ((fun n => generate_random_code (picks n) 4) 0) 0
      = alloc_loop files (fun n => generate_random_code (picks n) 4) from rfl] at hspec
  obtain ⟨hle, hcode, hprev, hlast⟩ := hspec
  refine ⟨?_, ?_, hle, hprev, hlast⟩
  · rw [hcode]; exact generate_random_code_length _ 4
  · rw [hcode]; exact generate_random_code_mem _ 4

/-- C10: a generated 4-character code, alone or with any derivable
extension appended, is never one of the reserved route names upload,
health and files, so view_file never takes its reserved-route rejection
branch on such a path and no uploaded file is made unreachable by it. -/
theorem C10_reserved_names_unreachable (s : Store) (picks : Nat → Nat) (ct : String) :
    reservedCheck (generate_random_code picks 4) = false ∧
    reservedCheck (generate_random_code picks 4 ++ get_extension ct) = false ∧
    view_file s (generate_random_code picks 4) ≠ ViewResult.invalidRoute ∧
    view_file s (generate_random_code picks 4 ++ get_extension ct)
      ≠ ViewResult.invalidRoute := by
  have hlen := generate_random_code_length picks 4
  have hext := get_extension_length ct
  have hlen2 : (generate_random_code picks 4 ++ get_extension ct).length
      = 4 + (get_extension ct).length := by
    rw [String.length_append, hlen]
  have h1 : reservedCheck (generate_random_code picks 4) = false :=
    reservedCheck_false_of_length _ (by omega) (by omega)
  have h2 : reservedCheck (generate_random_code picks 4 ++ get_extension ct) = false :=
    reservedCheck_false_of_length _ (by omega) (by omega)
  exact ⟨h1, h2, view_file_not_invalid s _ h1, view_file_not_invalid s _ h2⟩

/-- C9: the file listing holds at most 100 entries, is ordered by upload
time newest first, and is computed from the metadata alone: the listing
of a store with any other content-store contents (and any other id
counter) is identical, so no raw content bytes can appear in it. -/
theorem C9_listing (s : Store) (fs2 : List (Nat × Bytes)) (n2 : Nat) :
    (list_files s).length ≤ 100 ∧
    List.Pairwise (fun a b => b.uploaded_at ≤ a.uploaded_at) (list_files s) ∧
    list_files { files := s.files, fs := fs2, nextId := n2 } = list_files s := by
  refine ⟨?_, ?_, rfl⟩
  · rw [list_files, List.length_map]
    exact List.length_take_le 100 _
  · rw [list_files]
    have hsorted : List.Pairwise
        (fun a b : FileRecord => (decide (b.uploaded_at ≤ a.uploaded_at)) = true)
        (s.files.mergeSort (fun a b => decide (b.uploaded_at ≤ a.uploaded_at))) :=
      List.sorted_mergeSort
        (fun a b c h1 h2 => by
          simp only [decide_eq_true_eq] at h1 h2 ⊢
          omega)
        (fun a b => by
          simp only [Bool.or_eq_true, decide_eq_true_eq]
          omega)
        s.files
    have htake := List.Pairwise.sublist (List.take_sublist 100 _) hsorted
    exact List.Pairwise.map _ (fun a b h => by simpa using h) htake

/-- A store holds no trace of a record: no metadata document carries its
id and no blob sits under its content handle. -/
def Cleared (s : Store) (r : FileRecord) : Prop :=
  (∀ y ∈ s.files, y.id ≠ r.id) ∧ (∀ p ∈ s.fs, p.1 ≠ r.file_id)

/-- The per-record sweep pass clears the record it processes. -/
lemma cleared_sweep_record_self (s : Store) (r : FileRecord) :
    Cleared (sweep_record s r) r := by
  constructor
  · intro y hy
    rw [sweep_record] at hy
    simp only [List.mem_filter, Bool.not_eq_eq_eq_not, Bool.not_true, beq_eq_false_iff_ne] at hy
    exact hy.2
  · intro p hp
    rw [sweep_record] at hp
    simp only [List.mem_filter, Bool.not_eq_eq_eq_not, Bool.not_true, beq_eq_false_iff_ne] at hp
    exact hp.2

/-- The per-record sweep pass only removes entries, so a record once
cleared stays cleared. -/
lemma cleared_sweep_record_mono (s : Store) (x r : FileRecord) (h : Cleared s r) :
    Cleared (sweep_record s x) r := by
  constructor
  · intro y hy
    rw [sweep_record] at hy
    exact h.1 y (List.mem_of_mem_filter hy)
  · intro p hp
    rw [sweep_record] at hp
    exact h.2 p (List.mem_of_mem_filter hp)

/-- Folding the per-record pass over any list of records keeps a record
cleared. -/
lemma cleared_foldl (r : FileRecord) :
    ∀ (l : List FileRecord) (s : Store), Cleared s r → Cleared (l.foldl sweep_record s) r := by
  intro l
  induction l with
  | nil => intro s h; exact h
  | cons x t ih =>
    intro s h
    rw [List.foldl_cons]
    exact ih (sweep_record s x) (cleared_sweep_record_mono s x r h)

/-- C3 (spec-modelled): the repository has no Retention Sweeper, so one
sweep cycle is modelled from spec section 4.4; for every live record
whose age exceeds the retention window, one cycle removes both its
metadata document and its content blob. -/
theorem C3_sweep_removes_expired (s : Store) (now window : Nat) (r : FileRecord)
    (hr : r ∈ s.files) (hexp : window < now - r.uploaded_at) :
    r ∉ (sweep s now window).files ∧ ∀ p ∈ (sweep s now window).fs, p.1 ≠ r.file_id := by
  have hexpired : r ∈ s.files.filter (fun x => decide (x.uploaded_at < now - window)) := by
    rw [List.mem_filter]
    exact ⟨hr, by simp only [decide_eq_true_eq]; omega⟩
  obtain ⟨l1, l2, hsplit⟩ := List.append_of_mem hexpired
  have hcl : Cleared (sweep s now window) r := by
    rw [sweep, hsplit, List.foldl_append, List.foldl_cons]
    exact cleared_foldl r l2 _ (cleared_sweep_record_self (List.foldl sweep_record s l1) r)
  exact ⟨fun hmem => (hcl.1 r hmem) rfl, hcl.2⟩

/-- C3 witness: one sweep cycle on a concrete store removes the expired
record and its blob. -/
theorem C3_sweep_witness :
    recA ∈ storeA.files ∧ 5 < 20 - recA.uploaded_at ∧
    recA ∉ (sweep storeA 20 5).files ∧ ∀ p ∈ (sweep storeA 20 5).fs, p.1 ≠ recA.file_id :=
  have h := C3_sweep_removes_expired storeA 20 5 recA (by decide) (by decide)
  ⟨by decide, by decide, h.1, h.2⟩

/-- C6: deleting by record id returns NotFound with both stores
unchanged when no record carries the id; when a record is found, the
effects are content delete first (at the intermediate state the blob is
gone while the metadata still resolves) and metadata delete second;
afterwards neither store holds the record, and a repeated delete of the
same id returns NotFound on the unchanged state rather than an error.
Ids and handles are assumed unique, as Mongo ObjectIds are. -/
theorem C6_delete_semantics (s : Store) (fid : Nat)
    (hid : (s.files.filter (fun r => r.id == fid)).length ≤ 1)
    (hfs : ∀ doc ∈ s.files, (s.fs.filter (fun p => p.1 == doc.file_id)).length ≤ 1) :
    (find_one_id s.files fid = none → delete_file s fid = (.notFound, s)) ∧
    (∀ doc, find_one_id s.files fid = some doc →
      delete_file s fid = (.success, delete_meta_step (delete_content_step s doc) fid) ∧
      fs_get (delete_content_step s doc).fs doc.file_id = none ∧
      find_one_id (delete_content_step s doc).files fid = some doc ∧
      find_one_id (delete_file s fid).2.files fid = none ∧
      fs_get (delete_file s fid).2.fs doc.file_id = none ∧
      delete_file (delete_file s fid).2 fid = (.notFound, (delete_file s fid).2)) := by
  constructor
  · intro h
    rw [delete_file, h]
  · intro doc hdoc
    have hmem : doc ∈ s.files := List.mem_of_find?_eq_some hdoc
    have hshape : delete_file s fid = (.success, delete_meta_step (delete_content_step s doc) fid) := by
      rw [delete_file, hdoc]
    have hblob : fs_get (delete_content_step s doc).fs doc.file_id = none := by
      rw [delete_content_step, fs_get]
      rw [fs_delete]
      rw [find?_eraseP_of_unique _ s.fs (hfs doc hmem)]
      rfl
    have hinter : find_one_id (delete_content_step s doc).files fid = some doc := hdoc
    have hfinal_files : find_one_id (delete_meta_step (delete_content_step s doc) fid).files fid
        = none := by
      rw [delete_meta_step, delete_content_step, find_one_id, delete_one_id]
      exact find?_eraseP_of_unique _ s.files hid
    have hfinal_fs : fs_get (delete_meta_step (delete_content_step s doc) fid).fs doc.file_id
        = none := hblob
    refine ⟨hshape, hblob, hinter, ?_, ?_, ?_⟩
    · rw [hshape]; exact hfinal_files
    · rw [hshape]; exact hfinal_fs
    · rw [hshape]
      rw [delete_file, hfinal_files]

/-- C6 witness: the delete semantics at a concrete store, for an absent
id and for the present id with its repeated delete. -/
theorem C6_delete_witness :
    delete_file storeA 5 = (.notFound, storeA) ∧
    delete_file storeA 0 = (.success, delete_meta_step (delete_content_step storeA recA) 0) ∧
    fs_get (delete_content_step storeA recA).fs recA.file_id = none ∧
    find_one_id (delete_content_step storeA recA).files 0 = some recA ∧
    find_one_id (delete_file storeA 0).2.files 0 = none ∧
    fs_get (delete_file storeA 0).2.fs recA.file_id = none ∧
    delete_file (delete_file storeA 0).2 0 = (.notFound, (delete_file storeA 0).2) :=
  have h5 := C6_delete_semantics storeA 5 (by decide) (by decide)
  have h0 := C6_delete_semantics storeA 0 (by decide) (by decide)
  have hsome := h0.2 recA (by decide)
  ⟨h5.1 (by decide), hsome.1, hsome.2.1, hsome.2.2.1, hsome.2.2.2.1, hsome.2.2.2.2.1,
    hsome.2.2.2.2.2⟩

/-- view_file past the reserved-route guard, written as the query match
it runs. -/
lemma view_file_eq (s : Store) (f : String) (h : reservedCheck f = false) :
    view_file s f = (match find_one_query s.files (String.mk (rsplit_dot f.toList).1)
        ((rsplit_dot f.toList).2.map (fun e => String.mk ('.' :: e))) with
      | none => ViewResult.notFound
      | some doc => match fs_get s.fs doc.file_id with
        | none => ViewResult.retrievalError
        | some data => ViewResult.ok data doc.content_type doc.original_name) := by
  rw [view_file, if_neg (by simp [h])]

/-- A dotted path, viewed as characters, is the code part, the dot, and
the extension part. -/
lemma dotted_path_data (code ext : String) :
    (code ++ "." ++ ext).toList = code.data ++ '.' :: ext.data := by
  show (code ++ "." ++ ext).data = code.data ++ '.' :: ext.data
  rw [String.data_append, String.data_append]
  simp

/-- C7: a lookup path with an extension is split at the last dot and the
extension is an exact filter: when no live record carries both the code
and exactly that stored extension, the lookup is NotFound (not an
error); a lookup by bare code never filters on the extension, so any
record found under the code resolves. -/
theorem C7_extension_filter (s : Store) (code ext : String)
    (hc : '.' ∉ code.toList) (he : '.' ∉ ext.toList) :
    ((∀ r ∈ s.files, r.code = code → r.extension ≠ "." ++ ext) →
      view_file s (code ++ "." ++ ext) = ViewResult.notFound) ∧
    (∀ r, find_one_code s.files code = some r → reservedCheck code = false →
      view_file s code ≠ ViewResult.notFound) := by
  constructor
  · intro hmismatch
    have hdot : '.' ∈ (code ++ "." ++ ext).toList := by
      rw [dotted_path_data]
      simp
    have hres : reservedCheck (code ++ "." ++ ext) = false :=
      reservedCheck_false_of_dot _ hdot
    rw [view_file_eq s _ hres]
    have hparse : rsplit_dot (code ++ "." ++ ext).toList = (code.data, some ext.data) := by
      rw [dotted_path_data]
      exact rsplit_dot_last code.data ext.data he
    rw [hparse]
    have hmkcode : String.mk code.data = code := rfl
    have hmkext : String.mk ('.' :: ext.data) = "." ++ ext := rfl
    have hnone : find_one_query s.files code (some ("." ++ ext)) = none := by
      rw [find_one_query, List.find?_eq_none]
      intro r hr hand
      simp only [Bool.and_eq_true, beq_iff_eq] at hand
      exact hmismatch r hr hand.1 hand.2
    dsimp only [Option.map]
    rw [hmkcode, hmkext, hnone]
  · intro r hfind hres
    rw [view_file_eq s _ hres]
    have hparse : rsplit_dot code.toList = (code.toList, none) :=
      rsplit_dot_no_dot code.toList hc
    rw [hparse]
    have hpred : (fun x : FileRecord => x.code == code && (true : Bool))
        = (fun x : FileRecord => x.code == code) := by
      funext x
      rw [Bool.and_true]
    have hq : find_one_query s.files (String.mk code.toList) none = some r := by
      rw [find_one_query]
      show s.files.find? (fun x => x.code == String.mk code.toList && (true : Bool)) = some r
      rw [show String.mk code.toList = code from rfl, hpred]
      exact hfind
    dsimp only [Option.map]
    rw [hq]
    cases hg : fs_get s.fs r.file_id <;> simp [hg]

/-- C7 witness: on a concrete store, a lookup under the live code with a
mismatched extension is NotFound while the bare-code lookup resolves. -/
theorem C7_extension_witness :
    view_file storeA ("aaaa" ++ "." ++ "png") = ViewResult.notFound ∧
    view_file storeA "aaaa" ≠ ViewResult.notFound :=
  have h := C7_extension_filter storeA "aaaa" "png" (by decide) (by decide)
  ⟨h.1 (by decide), h.2 recA (by decide) (by decide)⟩

/-- C1 counterexample: with code aaaa live and the allocator's retry
budget exhausted on a constant stream, a second upload succeeds under
the same code and returns the path aaaa.txt, but looking that path up
serves the OLDER record's byte [1] instead of the uploaded byte [9]:
the round trip of the claim fails. -/
theorem C1_counterexample :
    (upload_file storeA genA true "b.txt" (some "text/plain") [9] 1 true).1.map
        (fun r => r.urlPath) = Except.ok "aaaa.txt" ∧
    view_file (upload_file storeA genA true "b.txt" (some "text/plain") [9] 1 true).2
        "aaaa.txt" = ViewResult.ok [1] "text/plain" "a.txt" ∧
    ([1] : Bytes) ≠ [9] := by
  decide

/-- C1 (amended): whenever the allocator's chosen code is still free in
the record store (always the case except when all 11 candidate codes
collide, the weak point flagged by C5 and C2) and the content store's
next handle is fresh, a successful upload's returned path looks up to
exactly the uploaded bytes with the declared content type and the
original filename. -/
theorem C1_upload_roundtrip (s : Store) (picks : Nat → Nat → Nat) (filename : String)
    (dt : Option String) (content : Bytes) (now : Nat)
    (hname : filename ≠ "")
    (hfree : find_one_code s.files
        (alloc_loop s.files (fun n => generate_random_code (picks n) 4)).1 = none)
    (hkeys : ∀ p ∈ s.fs, p.1 ≠ s.nextId) :
    ∃ res s2,
      upload_file s (fun n => generate_random_code (picks n) 4) true filename dt content now true
        = (.ok res, s2) ∧
      view_file s2 res.urlPath
        = ViewResult.ok content (dt.getD "application/octet-stream") filename := by
  refine ⟨_, _, upload_file_ok s (fun n => generate_random_code (picks n) 4)
    filename dt content now hname, ?_⟩
  have hspec := alloc_go_spec s.files (fun n => generate_random_code (picks n) 4) 10 0 rfl
    (by omega)
  rw [show alloc_go s.files (fun n => generate_random_code (picks n) 4) 10
      ((fun n => generate_random_code (picks n) 4) 0) 0
      = alloc_loop s.files (fun n => generate_random_code (picks n) 4) from rfl] at hspec
  obtain ⟨-, hcode, -, -⟩ := hspec
  have hcdot : '.' ∉ (alloc_loop s.files (fun n => generate_random_code (picks n) 4)).1.toList := by
    rw [hcode]
    exact generate_random_code_no_dot _ 4
  have hetail : '.' ∉ (get_extension (dt.getD "application/octet-stream")).data.tail :=
    (get_extension_shape (dt.getD "application/octet-stream")).2
  have hpathdata :
      ((alloc_loop s.files (fun n => generate_random_code (picks n) 4)).1
        ++ get_extension (dt.getD "application/octet-stream")).toList
      = (alloc_loop s.files (fun n => generate_random_code (picks n) 4)).1.data
        ++ '.' :: (get_extension (dt.getD "application/octet-stream")).data.tail := by
    show ((alloc_loop s.files (fun n => generate_random_code (picks n) 4)).1
        ++ get_extension (dt.getD "application/octet-stream")).data
      = (alloc_loop s.files (fun n => generate_random_code (picks n) 4)).1.data
        ++ '.' :: (get_extension (dt.getD "application/octet-stream")).data.tail
    rw [String.data_append, ← get_extension_decomp]
  have hdot : '.' ∈ ((alloc_loop s.files (fun n => generate_random_code (picks n) 4)).1
      ++ get_extension (dt.getD "application/octet-stream")).toList := by
    rw [hpathdata]
    simp
  have hres : reservedCheck ((alloc_loop s.files (fun n => generate_random_code (picks n) 4)).1
      ++ get_extension (dt.getD "application/octet-stream")) = false :=
    reservedCheck_false_of_dot _ hdot
  rw [view_file_eq _ _ hres]
  have hparse : rsplit_dot ((alloc_loop s.files (fun n => generate_random_code (picks n) 4)).1
      ++ get_extension (dt.getD "application/octet-stream")).toList
      = ((alloc_loop s.files (fun n => generate_random_code (picks n) 4)).1.data,
         some (get_extension (dt.getD "application/octet-stream")).data.tail) := by
    rw [hpathdata]
    exact rsplit_dot_last _ _ hetail
  rw [hparse]
  dsimp only [Option.map]
  have hmkext : String.mk ('.' :: (get_extension (dt.getD "application/octet-stream")).data.tail)
      = get_extension (dt.getD "application/octet-stream") :=
    (congrArg String.mk (get_extension_decomp (dt.getD "application/octet-stream"))).symm
  rw [hmkext]
  have hfree2 : ∀ x ∈ s.files, ¬ (x.code
        == (alloc_loop s.files (fun n => generate_random_code (picks n) 4)).1
      && (x.extension == get_extension (dt.getD "application/octet-stream"))) = true := by
    intro x hx hpx
    rw [find_one_code, List.find?_eq_none] at hfree
    apply hfree x hx
    rw [Bool.and_eq_true] at hpx
    exact hpx.1
  have hq : find_one_query
      (s.files ++ [uploadDoc s (fun n => generate_random_code (picks n) 4) filename dt content now])
      (String.mk (alloc_loop s.files (fun n => generate_random_code (picks n) 4)).1.data)
      (some (get_extension (dt.getD "application/octet-stream")))
      = some (uploadDoc s (fun n => generate_random_code (picks n) 4) filename dt content now) := by
    show List.find? (fun r => r.code
          == (alloc_loop s.files (fun n => generate_random_code (picks n) 4)).1
        && (r.extension == get_extension (dt.getD "application/octet-stream")))
      (s.files ++ [uploadDoc s (fun n => generate_random_code (picks n) 4) filename dt content now])
      = some (uploadDoc s (fun n => generate_random_code (picks n) 4) filename dt content now)
    rw [List.find?_append, List.find?_eq_none.mpr hfree2, Option.none_or]
    apply find?_singleton
    show ((uploadDoc s (fun n => generate_random_code (picks n) 4) filename dt content now).code
        == (alloc_loop s.files (fun n => generate_random_code (picks n) 4)).1
      && ((uploadDoc s (fun n => generate_random_code (picks n) 4) filename dt content now).extension
        == get_extension (dt.getD "application/octet-stream"))) = true
    rw [Bool.and_eq_true]
    exact ⟨beq_iff_eq.mpr rfl, beq_iff_eq.mpr rfl⟩
  rw [hq]
  dsimp only
  have hget : fs_get (s.fs ++ [(s.nextId, content)]) s.nextId = some content := by
    rw [fs_get, List.find?_append]
    have hnone2 : List.find? (fun p => p.1 == s.nextId) s.fs = none := by
      rw [List.find?_eq_none]
      intro p hp hpp
      exact hkeys p hp (by simpa using hpp)
    rw [hnone2, Option.none_or,
      find?_singleton (fun p => p.1 == s.nextId) (s.nextId, content) (beq_iff_eq.mpr rfl)]
    rfl
  rw [show fs_get (s.fs ++ [(s.nextId, content)])
      (uploadDoc s (fun n => generate_random_code (picks n) 4) filename dt content now).file_id
      = some content from hget]
  rfl

/-- An empty fixture store. -/
def storeE : Store := { files := [], fs := [], nextId := 0 }

/-- C1 witness: the amended round trip at an empty store with a
constant draw stream. -/
theorem C1_upload_roundtrip_witness :
    ∃ res s2,
      upload_file storeE (fun n => generate_random_code ((fun _ _ => 0) n) 4) true "a.txt"
          (some "text/plain") [7, 8] 3 true = (.ok res, s2) ∧
      view_file s2 res.urlPath
        = ViewResult.ok [7, 8] ((some "text/plain").getD "application/octet-stream") "a.txt" :=
  C1_upload_roundtrip storeE (fun _ _ => 0) "a.txt" (some "text/plain") [7, 8] 3
    (by decide) (by decide) (by decide)
